import Mathlib

/-!
Shallow embedding of the per-session memory engine of `src/lib/memory.ts`
and of the follow-up persistence step of
`src/app/api/analyze-answer/route.ts`.

Modelling conventions:

* TypeScript `string | null` (and possibly `undefined`) fields become
  `Option String`; JavaScript truthiness tests `if (x)` on such a field
  become a match that also treats the empty string as absent.
* `randomUUID()` is modelled by an abstract id supply `uuid : Nat → String`
  together with a counter threaded through the merge in source order
  (instagram posts, then linkedin activities, then the four tree layers).
* `new Date().toISOString()` is modelled by an explicit `now : String`.
* JSON numbers (the `confidence` field) are modelled as `Int`; the code
  only stores them after a `typeof x === "number"` test, which becomes
  `Option Int`.
* The mutable `Set` of dedup keys kept by `applyMemoryUpdate` is modelled
  as a `List String` that grows in step with the stored list, exactly as
  the source keeps `existing` / `existingKeys` in step with the pushes.
* The durable file for one session key is modelled by `MemoryFile`
  (missing / unreadable / stored-with-decode-result), and the stateful
  store operations pass that value explicitly.
-/

/-- The four psycho-tree layers (`PsychoLayer` in `src/lib/memory.ts`). -/
inductive PsychoLayer where
  | leaves
  | branches
  | trunk
  | roots
deriving DecidableEq

/-- Transcript roles (`TranscriptRole`). -/
inductive TranscriptRole where
  | user
  | assistant
deriving DecidableEq

/-- A transcript turn (`TranscriptEntry`). -/
structure TranscriptEntry where
  role : TranscriptRole
  content : String
  timestamp : String
deriving DecidableEq

/-- A stored psycho-tree entry (`PsychoTreeEntry`). -/
structure PsychoTreeEntry where
  id : String
  layer : PsychoLayer
  question : Option String
  answer : String
  evidence : Option String
  tags : List String
  confidence : Option Int
  timestamp : String
deriving DecidableEq

/-- A stored instagram post (`SocialPost`). `SocialActivity` in the source
has the identical shape, so the same structure models both. -/
structure SocialPost where
  id : String
  text : String
  date : Option String
  url : Option String
deriving DecidableEq

/-- Linkedin activities have exactly the fields of `SocialPost`
(`SocialActivity` in the source). -/
abbrev SocialActivity := SocialPost

/-- The `user` sub-record of `UserMemory`. -/
structure UserIdentity where
  id : String
  name : Option String
  email : Option String
deriving DecidableEq

/-- The `social.instagram` sub-record of `UserMemory`. -/
structure InstagramProfile where
  handle : Option String
  url : Option String
  posts : List SocialPost
deriving DecidableEq

/-- The `social.linkedin` sub-record of `UserMemory`. -/
structure LinkedinProfile where
  profileUrl : Option String
  activities : List SocialActivity
deriving DecidableEq

/-- The `social` sub-record of `UserMemory`. -/
structure SocialProfiles where
  instagram : InstagramProfile
  linkedin : LinkedinProfile
deriving DecidableEq

/-- The `psychoTree` record: one entry list per layer
(`Record<PsychoLayer, PsychoTreeEntry[]>` in the source). -/
structure PsychoTree where
  leaves : List PsychoTreeEntry
  branches : List PsychoTreeEntry
  trunk : List PsychoTreeEntry
  roots : List PsychoTreeEntry
deriving DecidableEq

/-- Look a layer up in a `PsychoTree` (`memory.psychoTree[layer]`). -/
def PsychoTree.layerGet (t : PsychoTree) : PsychoLayer → List PsychoTreeEntry
  | .leaves => t.leaves
  | .branches => t.branches
  | .trunk => t.trunk
  | .roots => t.roots

/-- Follow-up actions (`FollowupAction`). -/
inductive FollowupAction where
  | double_down
  | rephrase
  | continue_story
  | move_on
deriving DecidableEq

/-- A follow-up decision (`FollowupSignal`); `targetLayer` is
`PsychoLayer | "none"`, modelled as `Option PsychoLayer` with `none`
standing for the string `"none"`. -/
structure FollowupSignal where
  action : FollowupAction
  targetLayer : Option PsychoLayer
  rationale : Option String
  suggestedPrompt : Option String
deriving DecidableEq

/-- The canonical per-session record (`UserMemory`). -/
structure UserMemory where
  user : UserIdentity
  social : SocialProfiles
  psychoTree : PsychoTree
  transcript : List TranscriptEntry
  lastFollowup : Option FollowupSignal
  createdAt : String
  updatedAt : String
deriving DecidableEq

/-- Incoming identity fragment (`MemoryUpdate.user`). -/
structure UserUpd where
  name : Option String
  email : Option String
deriving DecidableEq

/-- An incoming post / activity item (the element type of
`MemoryUpdate.social.instagram.posts` and `...linkedin.activities`). -/
structure SocialItemUpd where
  text : Option String
  date : Option String
  url : Option String
deriving DecidableEq

/-- Incoming instagram fragment (`MemoryUpdate.social.instagram`);
`posts := none` models a missing or non-array `posts` field. -/
structure InstagramUpd where
  handle : Option String
  url : Option String
  posts : Option (List SocialItemUpd)
deriving DecidableEq

/-- Incoming linkedin fragment (`MemoryUpdate.social.linkedin`). -/
structure LinkedinUpd where
  profileUrl : Option String
  activities : Option (List SocialItemUpd)
deriving DecidableEq

/-- Incoming social fragment (`MemoryUpdate.social`). -/
structure SocialUpd where
  instagram : Option InstagramUpd
  linkedin : Option LinkedinUpd
deriving DecidableEq

/-- An incoming psycho-tree entry (the element type of the per-layer lists
of `MemoryUpdate.psychoTree`). -/
structure EntryUpd where
  question : Option String
  answer : Option String
  evidence : Option String
  tags : Option (List String)
  confidence : Option Int
deriving DecidableEq

/-- Incoming psycho-tree fragment (`MemoryUpdate.psychoTree`): an optional
entry list per layer; `none` models a missing or non-array field. -/
structure PsychoTreeUpd where
  leaves : Option (List EntryUpd)
  branches : Option (List EntryUpd)
  trunk : Option (List EntryUpd)
  roots : Option (List EntryUpd)
deriving DecidableEq

/-- Look a layer up in a `PsychoTreeUpd` (`update.psychoTree?.[layer]`). -/
def PsychoTreeUpd.layerGet (t : PsychoTreeUpd) : PsychoLayer → Option (List EntryUpd)
  | .leaves => t.leaves
  | .branches => t.branches
  | .trunk => t.trunk
  | .roots => t.roots

/-- A candidate fragment (`MemoryUpdate`). -/
structure MemoryUpdate where
  user : Option UserUpd
  social : Option SocialUpd
  psychoTree : Option PsychoTreeUpd
  hasPsychoTreeAnswer : Option Bool
deriving DecidableEq

/-- Identifier sanitization (`sanitizeSessionId`, `src/lib/memory.ts`
lines 120-123): keep only `[a-zA-Z0-9_-]`, fall back to `"anonymous"`
when nothing survives. -/
def isSafeSessionChar (c : Char) : Bool :=
  c.isAlphanum || c == '_' || c == '-'

/-- The sanitizer itself: `sessionId.replace(/[^a-zA-Z0-9_-]/g, "")`,
then the `"anonymous"` fallback for the empty result. -/
def sanitizeSessionId (sessionId : String) : String :=
  let safe := String.mk (sessionId.data.filter isSafeSessionChar)
  if safe.length > 0 then safe else "anonymous"

/-- `createEmptyMemory` (`src/lib/memory.ts` lines 129-159): the default
record for a fresh session, with both timestamps set to the same `now`. -/
def createEmptyMemory (sessionId : String) (now : String) : UserMemory :=
  { user := { id := sessionId, name := none, email := none }
    social :=
      { instagram := { handle := none, url := none, posts := [] }
        linkedin := { profileUrl := none, activities := [] } }
    psychoTree := { leaves := [], branches := [], trunk := [], roots := [] }
    transcript := []
    lastFollowup := none
    createdAt := now
    updatedAt := now }

/-- ASCII lower-casing, modelling JavaScript `toLowerCase()` on the ASCII
range. (Core's `String.toLower` is the same character map but is defined
by well-founded recursion, which does not evaluate inside the kernel;
this structural version does.) -/
def lowerStr (s : String) : String :=
  String.mk (s.data.map Char.toLower)

/-- JavaScript truthiness of a `string | null | undefined` value: present
and non-empty. -/
def strTruthy : Option String → Bool
  | some s => !s.isEmpty
  | none => false

/-- `if (incoming) field = incoming` for a string field: overwrite only
with a truthy (present, non-empty) value, otherwise keep the old one. -/
def orKeep (incoming old : Option String) : Option String :=
  match incoming with
  | some s => if s.isEmpty then old else some s
  | none => old

/-- Identity merge (`src/lib/memory.ts` lines 238-243): `name` / `email`
are overwritten only by truthy incoming values. -/
def applyUserUpd (old : UserIdentity) (uu : Option UserUpd) : UserIdentity :=
  match uu with
  | none => old
  | some u => { old with name := orKeep u.name old.name, email := orKeep u.email old.email }

/-- The dedup key of a stored post: `post.text.toLowerCase()`. -/
def postKey (p : SocialPost) : String := lowerStr p.text

/-- Post / activity list merge (`src/lib/memory.ts` lines 253-269 and
277-295): walk the incoming items, skip items whose `text` is falsy or
whose lower-cased text is already a known key, otherwise push a new item
with a fresh id and record its key. Returns the new list, the grown key
list and the advanced id counter. -/
def mergePostList (posts : List SocialPost) (keys : List String)
    (incoming : List SocialItemUpd) (uuid : Nat → String) (ctr : Nat) :
    List SocialPost × List String × Nat :=
  match incoming with
  | [] => (posts, keys, ctr)
  | p :: rest =>
    match p.text with
    | none => mergePostList posts keys rest uuid ctr
    | some t =>
      if t.isEmpty then mergePostList posts keys rest uuid ctr
      else
        let key := lowerStr t
        if key ∈ keys then mergePostList posts keys rest uuid ctr
        else
          mergePostList
            (posts ++ [{ id := uuid ctr, text := t, date := p.date, url := p.url }])
            (keys ++ [key]) rest uuid (ctr + 1)

/-- Instagram merge (`src/lib/memory.ts` lines 245-270): scalar fields via
truthiness, posts via `mergePostList` seeded with the keys of the stored
posts. Returns the profile and the advanced id counter. -/
def applyInstagram (old : InstagramProfile) (iu : Option InstagramUpd)
    (uuid : Nat → String) (ctr : Nat) : InstagramProfile × Nat :=
  match iu with
  | none => (old, ctr)
  | some ig =>
    let handle := orKeep ig.handle old.handle
    let url := orKeep ig.url old.url
    match ig.posts with
    | none => ({ handle := handle, url := url, posts := old.posts }, ctr)
    | some ps =>
      let r := mergePostList old.posts (old.posts.map postKey) ps uuid ctr
      ({ handle := handle, url := url, posts := r.1 }, r.2.2)

/-- Linkedin merge (`src/lib/memory.ts` lines 272-296), structurally the
same as the instagram case. -/
def applyLinkedin (old : LinkedinProfile) (lu : Option LinkedinUpd)
    (uuid : Nat → String) (ctr : Nat) : LinkedinProfile × Nat :=
  match lu with
  | none => (old, ctr)
  | some li =>
    let profileUrl := orKeep li.profileUrl old.profileUrl
    match li.activities with
    | none => ({ profileUrl := profileUrl, activities := old.activities }, ctr)
    | some as' =>
      let r := mergePostList old.activities (old.activities.map postKey) as' uuid ctr
      ({ profileUrl := profileUrl, activities := r.1 }, r.2.2)

/-- The dedup key of a stored tree entry:
`` `${entry.question ?? ""}:${entry.answer}`.toLowerCase() ``. -/
def storedEntryKey (e : PsychoTreeEntry) : String :=
  lowerStr ((e.question.getD "") ++ ":" ++ e.answer)

/-- The dedup key of an incoming tree entry with (truthy) answer `a`:
the same template string. -/
def entryUpdKey (e : EntryUpd) (a : String) : String :=
  lowerStr ((e.question.getD "") ++ ":" ++ a)

/-- Per-layer entry merge (`src/lib/memory.ts` lines 308-324): skip
entries with a falsy `answer` or an already-known key, otherwise push a
new entry with a fresh id, the layer tag, timestamp `now`, and `tags`
coerced to a filtered list. -/
def mergeEntryList (stored : List PsychoTreeEntry) (keys : List String)
    (incoming : List EntryUpd) (layer : PsychoLayer) (now : String)
    (uuid : Nat → String) (ctr : Nat) :
    List PsychoTreeEntry × List String × Nat :=
  match incoming with
  | [] => (stored, keys, ctr)
  | e :: rest =>
    match e.answer with
    | none => mergeEntryList stored keys rest layer now uuid ctr
    | some a =>
      if a.isEmpty then mergeEntryList stored keys rest layer now uuid ctr
      else
        let key := entryUpdKey e a
        if key ∈ keys then mergeEntryList stored keys rest layer now uuid ctr
        else
          mergeEntryList
            (stored ++ [{ id := uuid ctr, layer := layer, question := e.question,
                          answer := a, evidence := e.evidence,
                          tags := (e.tags.getD []).filter (fun t => !t.isEmpty),
                          confidence := e.confidence, timestamp := now }])
            (keys ++ [key]) rest layer now uuid (ctr + 1)

/-- One layer of the tree merge (`src/lib/memory.ts` lines 300-325): a
missing / non-array entry list leaves the layer untouched; otherwise the
existing keys are collected and the incoming entries folded in. (The
source also early-returns on an empty incoming array, which coincides
with folding nothing.) -/
def mergeLayer (stored : List PsychoTreeEntry) (inc : Option (List EntryUpd))
    (layer : PsychoLayer) (now : String) (uuid : Nat → String) (ctr : Nat) :
    List PsychoTreeEntry × Nat :=
  match inc with
  | none => (stored, ctr)
  | some es =>
    let r := mergeEntryList stored (stored.map storedEntryKey) es layer now uuid ctr
    (r.1, r.2.2)

/-- Tree merge (`src/lib/memory.ts` lines 298-326): the four layers in
the fixed order leaves, branches, trunk, roots, threading the id
counter. -/
def applyTree (old : PsychoTree) (tu : Option PsychoTreeUpd) (now : String)
    (uuid : Nat → String) (ctr : Nat) : PsychoTree × Nat :=
  match tu with
  | none => (old, ctr)
  | some t =>
    let l := mergeLayer old.leaves t.leaves .leaves now uuid ctr
    let b := mergeLayer old.branches t.branches .branches now uuid l.2
    let tk := mergeLayer old.trunk t.trunk .trunk now uuid b.2
    let r := mergeLayer old.roots t.roots .roots now uuid tk.2
    ({ leaves := l.1, branches := b.1, trunk := tk.1, roots := r.1 }, r.2)

/-- The merge (`applyMemoryUpdate`, `src/lib/memory.ts` lines 234-329):
identity, then instagram, then linkedin, then the profile tree, in source
order; `transcript`, `lastFollowup` and the timestamps are untouched. -/
def applyMemoryUpdate (memory : UserMemory) (update : MemoryUpdate)
    (now : String) (uuid : Nat → String) (ctr : Nat) : UserMemory :=
  let user := applyUserUpd memory.user update.user
  let ig := applyInstagram memory.social.instagram
    (update.social.bind SocialUpd.instagram) uuid ctr
  let li := applyLinkedin memory.social.linkedin
    (update.social.bind SocialUpd.linkedin) uuid ig.2
  let tree := applyTree memory.psychoTree update.psychoTree now uuid li.2
  { memory with
      user := user
      social := { instagram := ig.1, linkedin := li.1 }
      psychoTree := tree.1 }

/-- `appendTranscriptEntry` (`src/lib/memory.ts` lines 226-232). -/
def appendTranscriptEntry (memory : UserMemory) (entry : TranscriptEntry) :
    UserMemory :=
  { memory with transcript := memory.transcript ++ [entry] }

/-- The durable file behind one session key, as seen by `readMemoryFile`
(`src/lib/memory.ts` lines 161-177):
* `missing`: `fs.readFile` fails with code `ENOENT`;
* `unreadable msg`: `fs.readFile` fails with some other code (permissions,
  I/O), which the source re-throws;
* `stored (.ok m)`: the file exists and `JSON.parse` decodes to `m`;
* `stored (.error msg)`: the file exists but `JSON.parse` throws (corrupt
  data; a `SyntaxError` has no `ENOENT` code, so the source re-throws). -/
inductive MemoryFile where
  | missing
  | unreadable (msg : String)
  | stored (raw : Except String UserMemory)

/-- `readMemoryFile` (`src/lib/memory.ts` lines 161-177) as a state-passing
function: it returns the possibly-changed file (the `ENOENT` branch writes
a fresh default record) together with the decoded record, or propagates
the error. `now` models the `new Date().toISOString()` inside
`createEmptyMemory`. -/
def readMemoryFile (file : MemoryFile) (sessionId : String) (now : String) :
    Except String (MemoryFile × UserMemory) :=
  match file with
  | .stored (.ok m) => .ok (.stored (.ok m), m)
  | .stored (.error msg) => .error msg
  | .unreadable msg => .error msg
  | .missing =>
    let m := createEmptyMemory (sanitizeSessionId sessionId) now
    .ok (.stored (.ok m), m)

/-- `getMemory` (`src/lib/memory.ts` lines 209-211) just delegates to
`readMemoryFile`. -/
def getMemory (file : MemoryFile) (sessionId : String) (now : String) :
    Except String (MemoryFile × UserMemory) :=
  readMemoryFile file sessionId now

/-- `updateMemory` (`src/lib/memory.ts` lines 213-224), with the updater
allowed to fail (`Except`): load the record (creating a default if the
file is absent), run the updater, refresh `updatedAt`, write the whole
record back. The first component is the file after the call; a failure
before the final write leaves it as the read left it. The per-key lock
around this body is modelled separately (`lockStep`, `updStep`). -/
def updateMemory (file : MemoryFile) (sessionId : String)
    (updater : UserMemory → Except String UserMemory)
    (nowRead nowUpd : String) : MemoryFile × Except String UserMemory :=
  match readMemoryFile file sessionId nowRead with
  | .error e => (file, .error e)
  | .ok (file1, m) =>
    match updater m with
    | .error e => (file1, .error e)
    | .ok updated =>
      let final := { updated with updatedAt := nowUpd }
      (.stored (.ok final), .ok final)

/-- The updater the analyze-answer route passes to `updateMemory`
(`src/app/api/analyze-answer/route.ts` lines 173-182): append the user
turn to the transcript, merge the extracted fragment, then store the
follow-up decision unconditionally. -/
def analyzeAnswerPersist (current : UserMemory) (transcript : String)
    (extraction : MemoryUpdate) (followup : FollowupSignal) (now : String)
    (uuid : Nat → String) (ctr : Nat) : UserMemory :=
  let m1 := appendTranscriptEntry current
    { role := .user, content := transcript, timestamp := now }
  let m2 := applyMemoryUpdate m1 extraction now uuid ctr
  { m2 with lastFollowup := some followup }

/-- An event in the life of the per-key entry of the `memoryLocks` map
(`src/lib/memory.ts` lines 186-207), for the calls numbered `0, 1, ...`
in admission order for one fixed key:
* `enq i`: call `i` runs the synchronous prologue, which stores the
  promise `current.then(() => next)` in the map
  (`memoryLocks.set(safeId, current.then(() => next))`, line 196);
* `fin i`: call `i` runs its `finally` block (reached on success and on
  failure alike): it releases and deletes the map entry exactly when the
  entry is reference-equal to call `i`'s own `next` promise
  (`memoryLocks.get(safeId) === next`, line 203). -/
inductive LockEv where
  | enq (i : Nat)
  | fin (i : Nat)
deriving DecidableEq

/-- The identity of a promise object the per-key map entry can be compared
against: `chained i` is the fresh promise returned by
`current.then(() => next)` in call `i`'s prologue (the value the source
actually stores, line 196); `tail i` is call `i`'s own `next` promise
created at line 193 (the value its `finally` compares against, line 203).
`Promise.prototype.then` always returns a new promise, so `chained i` is a
different object from every `tail j`; the model renders the distinct
object identities as distinct constructors. -/
inductive PromiseId where
  | chained (i : Nat)
  | tail (i : Nat)
deriving DecidableEq

/-- The effect of one `LockEv` on the map entry for the key: `enq i`
stores the chained promise (line 196); `fin i` deletes exactly when the
entry equals call `i`'s `tail` promise (line 203) — a comparison that can
never succeed, since only `chained` promises are ever stored. -/
def lockStep (s : Option PromiseId) : LockEv → Option PromiseId
  | .enq i => some (.chained i)
  | .fin i => if s = some (.tail i) then none else s

/-- The schedules the promise semantics allows for `n` calls on one key:
`LockSched e f n tr` says `tr` is a possible remaining event sequence
once calls `0..e-1` have run their prologue and calls `0..f-1` have run
their `finally`. Prologues happen in admission order; `finally` blocks
happen in admission order as well (each call awaits the previous chain)
and only for already-enqueued calls (`f < e`). -/
inductive LockSched : Nat → Nat → Nat → List LockEv → Prop where
  | nil (n : Nat) : LockSched n n n []
  | enq {e f n : Nat} {tr : List LockEv} : e < n →
      LockSched (e + 1) f n tr → LockSched e f n (.enq e :: tr)
  | fin {e f n : Nat} {tr : List LockEv} : f < e →
      LockSched e (f + 1) n tr → LockSched e f n (.fin f :: tr)

/-- An event in an execution of two `updateMemory` calls for the same key,
numbered in admission order: each call loads the record, saves the
updated record, then releases the lock (the `finally` of
`withMemoryLock`). -/
inductive UpdEv where
  | load0
  | save0
  | rel0
  | load1
  | save1
  | rel1
deriving DecidableEq

/-- The observable state of such an execution: the persisted record for
the key, and the record each call's updater observed (in the source, the
`memory` passed to `updater`), `none` while the call has not loaded
yet. -/
structure TwoUpdState where
  store : UserMemory
  obs0 : Option UserMemory
  obs1 : Option UserMemory
deriving DecidableEq

/-- The effect of one event, for updaters `u0`, `u1` (each standing for
`updater` plus the `updatedAt` refresh of `updateMemory`): loads snapshot
the store, saves commit the updater's result, releases touch nothing. -/
def updStep (u0 u1 : UserMemory → UserMemory) (s : TwoUpdState) :
    UpdEv → TwoUpdState
  | .load0 => { s with obs0 := some s.store }
  | .save0 =>
    match s.obs0 with
    | some m => { s with store := u0 m }
    | none => s
  | .rel0 => s
  | .load1 => { s with obs1 := some s.store }
  | .save1 =>
    match s.obs1 with
    | some m => { s with store := u1 m }
    | none => s
  | .rel1 => s

/-- Run a trace of events from an initial persisted record. -/
def runUpd (u0 u1 : UserMemory → UserMemory) (init : UserMemory)
    (tr : List UpdEv) : TwoUpdState :=
  tr.foldl (updStep u0 u1) { store := init, obs0 := none, obs1 := none }

/-- The interleavings the source admits for two `updateMemory` calls on
one key: each event once, each call's own events in program order
(load, then save, then release), and — this is what `withMemoryLock`
guarantees via `await current` — the second call's body starts only
after the first call's release. -/
def ValidUpdTrace (tr : List UpdEv) : Prop :=
  tr.Perm [.load0, .save0, .rel0, .load1, .save1, .rel1] ∧
  tr.indexOf .load0 < tr.indexOf .save0 ∧
  tr.indexOf .save0 < tr.indexOf .rel0 ∧
  tr.indexOf .rel0 < tr.indexOf .load1 ∧
  tr.indexOf .load1 < tr.indexOf .save1 ∧
  tr.indexOf .save1 < tr.indexOf .rel1

/-! ## Theorems -/

/-- C9: `sanitizeSessionId` is total and deterministic (it is a Lean
function), every character of its result is an ASCII letter, digit,
underscore or hyphen, and it equals the input with all other characters
removed when that removal leaves something, and the fixed fallback
`"anonymous"` otherwise. -/
theorem sanitizeSessionId_safe_and_exact (s : String) :
    ((sanitizeSessionId s).data.all isSafeSessionChar = true) ∧
    sanitizeSessionId s =
      (if s.data.filter isSafeSessionChar = [] then "anonymous"
       else String.mk (s.data.filter isSafeSessionChar)) := by
  by_cases h : s.data.filter isSafeSessionChar = []
  · constructor
    · simp [sanitizeSessionId, String.length, h]
      decide
    · simp [sanitizeSessionId, String.length, h]
  · have hlen : 0 < (s.data.filter isSafeSessionChar).length :=
      List.length_pos.mpr h
    constructor
    · simp only [sanitizeSessionId, String.length, String.data]
      rw [if_pos hlen]
      exact List.all_eq_true.mpr fun c hc => List.of_mem_filter hc
    · simp only [sanitizeSessionId, String.length, String.data]
      rw [if_pos hlen, if_neg h]

/-- The instagram handle after a merge is the old one overwritten only by
a truthy incoming handle, independently of the post merge. -/
theorem applyInstagram_handle (old : InstagramProfile) (iu : Option InstagramUpd)
    (uuid : Nat → String) (ctr : Nat) :
    (applyInstagram old iu uuid ctr).1.handle =
      orKeep (iu.bind InstagramUpd.handle) old.handle := by
  cases iu with
  | none => simp [applyInstagram, orKeep]
  | some ig =>
    cases hp : ig.posts <;> simp [applyInstagram, Option.bind, hp]

/-- The instagram url after a merge, same shape. -/
theorem applyInstagram_url (old : InstagramProfile) (iu : Option InstagramUpd)
    (uuid : Nat → String) (ctr : Nat) :
    (applyInstagram old iu uuid ctr).1.url =
      orKeep (iu.bind InstagramUpd.url) old.url := by
  cases iu with
  | none => simp [applyInstagram, orKeep]
  | some ig =>
    cases hp : ig.posts <;> simp [applyInstagram, Option.bind, hp]

/-- The linkedin profile url after a merge, same shape. -/
theorem applyLinkedin_profileUrl (old : LinkedinProfile) (lu : Option LinkedinUpd)
    (uuid : Nat → String) (ctr : Nat) :
    (applyLinkedin old lu uuid ctr).1.profileUrl =
      orKeep (lu.bind LinkedinUpd.profileUrl) old.profileUrl := by
  cases lu with
  | none => simp [applyLinkedin, orKeep]
  | some li =>
    cases hp : li.activities <;> simp [applyLinkedin, Option.bind, hp]

/-- `orKeep` either keeps the old value or installs a non-empty incoming
one. -/
theorem orKeep_cases (incoming old : Option String) :
    orKeep incoming old = old ∨
      ∃ h, incoming = some h ∧ h.isEmpty = false ∧ orKeep incoming old = some h := by
  cases incoming with
  | none => exact Or.inl rfl
  | some s =>
    by_cases hs : s.isEmpty
    · exact Or.inl (by simp [orKeep, hs])
    · exact Or.inr ⟨s, rfl, by simpa using hs, by simp [orKeep, hs]⟩

/-- C10: the social scalar fields `instagram.handle`, `instagram.url` and
`linkedin.profileUrl` are overwritten by `applyMemoryUpdate` only when the
fragment supplies a non-empty value for them; a stored value is never
erased or replaced by null or the empty string. -/
theorem social_scalars_never_erased (m : UserMemory) (u : MemoryUpdate)
    (now : String) (uuid : Nat → String) (ctr : Nat) :
    ((applyMemoryUpdate m u now uuid ctr).social.instagram.handle =
        m.social.instagram.handle ∨
      ∃ h, (u.social.bind SocialUpd.instagram).bind InstagramUpd.handle = some h ∧
        h.isEmpty = false ∧
        (applyMemoryUpdate m u now uuid ctr).social.instagram.handle = some h) ∧
    ((applyMemoryUpdate m u now uuid ctr).social.instagram.url =
        m.social.instagram.url ∨
      ∃ h, (u.social.bind SocialUpd.instagram).bind InstagramUpd.url = some h ∧
        h.isEmpty = false ∧
        (applyMemoryUpdate m u now uuid ctr).social.instagram.url = some h) ∧
    ((applyMemoryUpdate m u now uuid ctr).social.linkedin.profileUrl =
        m.social.linkedin.profileUrl ∨
      ∃ h, (u.social.bind SocialUpd.linkedin).bind LinkedinUpd.profileUrl = some h ∧
        h.isEmpty = false ∧
        (applyMemoryUpdate m u now uuid ctr).social.linkedin.profileUrl = some h) := by
  refine ⟨?_, ?_, ?_⟩
  · have hh := applyInstagram_handle m.social.instagram
      (u.social.bind SocialUpd.instagram) uuid ctr
    have hc := orKeep_cases ((u.social.bind SocialUpd.instagram).bind InstagramUpd.handle)
      m.social.instagram.handle
    simp only [applyMemoryUpdate]
    rcases hc with hc | ⟨h, h1, h2, h3⟩
    · exact Or.inl (by rw [hh, hc])
    · exact Or.inr ⟨h, h1, h2, by rw [hh, h3]⟩
  · have hh := applyInstagram_url m.social.instagram
      (u.social.bind SocialUpd.instagram) uuid ctr
    have hc := orKeep_cases ((u.social.bind SocialUpd.instagram).bind InstagramUpd.url)
      m.social.instagram.url
    simp only [applyMemoryUpdate]
    rcases hc with hc | ⟨h, h1, h2, h3⟩
    · exact Or.inl (by rw [hh, hc])
    · exact Or.inr ⟨h, h1, h2, by rw [hh, h3]⟩
  · have hh := applyLinkedin_profileUrl m.social.linkedin
      (u.social.bind SocialUpd.linkedin) uuid
      (applyInstagram m.social.instagram (u.social.bind SocialUpd.instagram) uuid ctr).2
    have hc := orKeep_cases ((u.social.bind SocialUpd.linkedin).bind LinkedinUpd.profileUrl)
      m.social.linkedin.profileUrl
    simp only [applyMemoryUpdate]
    rcases hc with hc | ⟨h, h1, h2, h3⟩
    · exact Or.inl (by rw [hh, hc])
    · exact Or.inr ⟨h, h1, h2, by rw [hh, h3]⟩

/-- C3 (failing input): for a fresh session the record has `0 < 3` entries
in leaves plus branches, yet the analyze-answer route persists a follow-up
decision targeting `roots` into `lastFollowup` unchanged — nothing in the
core rejects or downgrades it (the `>= 3` gate exists only as prose in the
LLM prompt). -/
theorem roots_followup_persisted_unchecked :
    (createEmptyMemory "abc123" "T0").psychoTree.leaves.length +
        (createEmptyMemory "abc123" "T0").psychoTree.branches.length < 3 ∧
    (analyzeAnswerPersist (createEmptyMemory "abc123" "T0") "hello there"
        ⟨none, none, none, none⟩
        ⟨.move_on, some .roots, some "deep dive", some "prompt"⟩ "T1"
        (fun n => toString n) 0).lastFollowup =
      some ⟨.move_on, some .roots, some "deep dive", some "prompt"⟩ :=
  ⟨by decide, rfl⟩

/-- C8: `getMemory` returns the persisted record when one decodes; exactly
when the file is absent it creates, persists and returns the default empty
record (all collections empty, no follow-up, `createdAt = updatedAt = now`);
a corrupt (undecodable) file or any other read failure propagates as an
error and is never replaced by a default record. -/
theorem getMemory_read_create_or_fail (file : MemoryFile) (sid now : String) :
    (∀ m, file = .stored (.ok m) → getMemory file sid now = .ok (file, m)) ∧
    (file = .missing →
      getMemory file sid now =
        .ok (.stored (.ok (createEmptyMemory (sanitizeSessionId sid) now)),
          createEmptyMemory (sanitizeSessionId sid) now) ∧
      (createEmptyMemory (sanitizeSessionId sid) now).social.instagram.posts = [] ∧
      (createEmptyMemory (sanitizeSessionId sid) now).social.linkedin.activities = [] ∧
      (createEmptyMemory (sanitizeSessionId sid) now).psychoTree =
        ⟨[], [], [], []⟩ ∧
      (createEmptyMemory (sanitizeSessionId sid) now).transcript = [] ∧
      (createEmptyMemory (sanitizeSessionId sid) now).lastFollowup = none ∧
      (createEmptyMemory (sanitizeSessionId sid) now).createdAt = now ∧
      (createEmptyMemory (sanitizeSessionId sid) now).updatedAt = now) ∧
    (∀ msg, file = .stored (.error msg) → getMemory file sid now = .error msg) ∧
    (∀ msg, file = .unreadable msg → getMemory file sid now = .error msg) := by
  refine ⟨?_, ?_, ?_, ?_⟩
  · intro m hm; subst hm; rfl
  · intro hm; subst hm
    exact ⟨rfl, rfl, rfl, rfl, rfl, rfl, rfl, rfl⟩
  · intro msg hm; subst hm; rfl
  · intro msg hm; subst hm; rfl

/-- Witness for C8: the missing-file case at a concrete session id, and a
concrete corrupt file whose error is propagated rather than replaced. -/
theorem getMemory_read_create_or_fail_witness :
    getMemory .missing "abc" "T" =
      .ok (.stored (.ok (createEmptyMemory (sanitizeSessionId "abc") "T")),
        createEmptyMemory (sanitizeSessionId "abc") "T") ∧
    getMemory (.stored (.error "corrupt json")) "abc" "T" = .error "corrupt json" :=
  ⟨((getMemory_read_create_or_fail .missing "abc" "T").2.1 rfl).1,
    (getMemory_read_create_or_fail (.stored (.error "corrupt json")) "abc" "T").2.2.1
      "corrupt json" rfl⟩

/-- C7: when the file holds a decodable record and the updater fails,
`updateMemory` propagates the failure and the persisted record is left
completely unchanged — no partial write reaches the store. -/
theorem updateMemory_atomic_on_failure (file : MemoryFile) (sid : String)
    (updater : UserMemory → Except String UserMemory) (nr nu : String)
    (r : UserMemory) (e : String)
    (hstored : file = .stored (.ok r)) (hfail : updater r = .error e) :
    updateMemory file sid updater nr nu = (file, .error e) := by
  subst hstored
  simp [updateMemory, readMemoryFile, hfail]

/-- Witness for C7: a concrete stored record and an updater that always
fails leave the store exactly as it was. -/
theorem updateMemory_atomic_on_failure_witness :
    updateMemory (.stored (.ok (createEmptyMemory "s" "T0"))) "s"
        (fun _ => .error "boom") "T1" "T2" =
      (.stored (.ok (createEmptyMemory "s" "T0")), .error "boom") :=
  updateMemory_atomic_on_failure (.stored (.ok (createEmptyMemory "s" "T0"))) "s"
    (fun _ => .error "boom") "T1" "T2" (createEmptyMemory "s" "T0") "boom" rfl rfl

/-- Along any admissible schedule, once the map entry holds a chained
promise it keeps holding one: every `fin` comparison is against a `tail`
promise, which is never what is stored, so the delete never fires; the
entry only ever moves to the most recently stored chained promise. -/
theorem lockSched_never_deletes {e f n : Nat} {tr : List LockEv}
    (hs : LockSched e f n tr) :
    ∀ j : Nat, tr.foldl lockStep (some (.chained j)) =
      some (.chained (if e = n then j else n - 1)) := by
  induction hs with
  | nil n =>
    intro j
    simp
  | @enq e f n tr hlt _ ih =>
    intro j
    simp only [List.foldl_cons, lockStep]
    rw [ih e]
    have h1 : (if e + 1 = n then e else n - 1) = n - 1 := by
      split <;> omega
    have h2 : (if e = n then j else n - 1) = n - 1 := by
      rw [if_neg (by omega)]
    rw [h1, h2]
  | @fin e f n tr hlt _ ih =>
    intro j
    simp only [List.foldl_cons, lockStep]
    rw [if_neg (by simp)]
    exact ih j

/-- C4 (the leak): for every key that is locked at least once, after all
admitted calls have run their `finally` the map entry is still present —
it holds the last chained promise instead of being deleted, because the
`finally` at `src/lib/memory.ts` line 203 compares the entry against
`next` while line 196 stored `current.then(() => next)`, a different
promise object. -/
theorem memoryLocks_entry_leaks (n : Nat) (tr : List LockEv)
    (hn : 0 < n) (h : LockSched 0 0 n tr) :
    tr.foldl lockStep none = some (.chained (n - 1)) := by
  cases h with
  | nil => exact absurd hn (by omega)
  | enq hlt hsub =>
    simp only [List.foldl_cons, lockStep]
    rw [lockSched_never_deletes hsub 0]
    split
    next hc => rw [show n - 1 = 0 from by omega]
    next => rfl
  | fin hlt _ => exact absurd hlt (by omega)

/-- Witness for C4: a single call admitted and completed; its map entry
survives its own `finally`. -/
theorem memoryLocks_entry_leaks_witness :
    List.foldl lockStep none [.enq 0, .fin 0] = some (.chained 0) :=
  memoryLocks_entry_leaks 1 [.enq 0, .fin 0] (by decide)
    (.enq (by decide) (.fin (by decide) (.nil 1)))

/-- Under the program order of each call and the `await current` chaining
of `withMemoryLock`, only one interleaving of the two calls' events is
possible: the fully serialized one. -/
theorem validUpdTrace_eq (tr : List UpdEv) (h : ValidUpdTrace tr) :
    tr = [.load0, .save0, .rel0, .load1, .save1, .rel1] := by
  obtain ⟨hperm, h01, h12, h23, h34, h45⟩ := h
  have hlen : tr.length = 6 := by simpa using hperm.length_eq
  have hmem : ∀ ev : UpdEv, ev ∈ tr := by
    intro ev
    rw [hperm.mem_iff]
    cases ev <;> simp
  have hlt : ∀ ev : UpdEv, tr.indexOf ev < tr.length :=
    fun ev => List.indexOf_lt_length.mpr (hmem ev)
  have l0 := hlt .load0
  have l1 := hlt .save0
  have l2 := hlt .rel0
  have l3 := hlt .load1
  have l4 := hlt .save1
  have l5 := hlt .rel1
  rw [hlen] at l0 l1 l2 l3 l4 l5
  have e0 : tr.indexOf .load0 = 0 := by omega
  have e1 : tr.indexOf .save0 = 1 := by omega
  have e2 : tr.indexOf .rel0 = 2 := by omega
  have e3 : tr.indexOf .load1 = 3 := by omega
  have e4 : tr.indexOf .save1 = 4 := by omega
  have e5 : tr.indexOf .rel1 = 5 := by omega
  have g0 := List.getElem_indexOf (hlt .load0)
  have g1 := List.getElem_indexOf (hlt .save0)
  have g2 := List.getElem_indexOf (hlt .rel0)
  have g3 := List.getElem_indexOf (hlt .load1)
  have g4 := List.getElem_indexOf (hlt .save1)
  have g5 := List.getElem_indexOf (hlt .rel1)
  simp only [e0] at g0
  simp only [e1] at g1
  simp only [e2] at g2
  simp only [e3] at g3
  simp only [e4] at g4
  simp only [e5] at g5
  apply List.ext_getElem (by simp [hlen])
  intro i h1 h2
  have h6 : i < 6 := by omega
  interval_cases i <;> simp_all

/-- C5: in every interleaving `withMemoryLock` admits for two
`updateMemory` calls on the same key, the calls do not interleave their
load/save sequences: the second admitted call's updater observes exactly
the record the first call committed, and the final persisted record is
the sequential composition. -/
theorem updateMemory_mutual_exclusion (tr : List UpdEv)
    (u0 u1 : UserMemory → UserMemory) (init : UserMemory)
    (h : ValidUpdTrace tr) :
    (runUpd u0 u1 init tr).obs1 = some (u0 init) ∧
    (runUpd u0 u1 init tr).store = u1 (u0 init) := by
  rw [validUpdTrace_eq tr h]
  exact ⟨rfl, rfl⟩

/-- Witness for C5: the serialized trace with identity updaters from a
concrete record. -/
theorem updateMemory_mutual_exclusion_witness :
    (runUpd id id (createEmptyMemory "s" "T")
        [.load0, .save0, .rel0, .load1, .save1, .rel1]).obs1 =
      some (id (createEmptyMemory "s" "T")) ∧
    (runUpd id id (createEmptyMemory "s" "T")
        [.load0, .save0, .rel0, .load1, .save1, .rel1]).store =
      id (id (createEmptyMemory "s" "T")) :=
  updateMemory_mutual_exclusion [.load0, .save0, .rel0, .load1, .save1, .rel1]
    id id (createEmptyMemory "s" "T") (by refine ⟨?_, ?_, ?_, ?_, ?_, ?_⟩ <;> decide)

/-- The dedup key an incoming item would be checked under, or `none` when
its `text` is falsy and the source skips it outright. -/
def itemKey (p : SocialItemUpd) : Option String :=
  match p.text with
  | some t => if t.isEmpty then none else some (lowerStr t)
  | none => none

/-- The key list stays in sync with the stored list across a merge, as the
source's `existing` set does across its pushes. -/
theorem mergePostList_keys_sync (incoming : List SocialItemUpd) :
    ∀ (posts : List SocialPost) (keys : List String) (uuid : Nat → String) (ctr : Nat),
      keys = posts.map postKey →
      (mergePostList posts keys incoming uuid ctr).2.1 =
        (mergePostList posts keys incoming uuid ctr).1.map postKey := by
  induction incoming with
  | nil => intro posts keys uuid ctr h; simpa [mergePostList] using h
  | cons p rest ih =>
    intro posts keys uuid ctr h
    simp only [mergePostList]
    cases hp : p.text with
    | none => exact ih posts keys uuid ctr h
    | some t =>
      dsimp only
      by_cases he : t.isEmpty
      · rw [if_pos he]
        exact ih posts keys uuid ctr h
      · rw [if_neg he]
        by_cases hk : lowerStr t ∈ keys
        · rw [if_pos hk]
          exact ih posts keys uuid ctr h
        · rw [if_neg hk]
          exact ih _ _ uuid (ctr + 1) (by simp [h, postKey])

/-- Keys already known before a merge are still known after it. -/
theorem mergePostList_keys_mono (incoming : List SocialItemUpd) :
    ∀ (posts : List SocialPost) (keys : List String) (uuid : Nat → String)
      (ctr : Nat) (k : String), k ∈ keys →
      k ∈ (mergePostList posts keys incoming uuid ctr).2.1 := by
  induction incoming with
  | nil => intro posts keys uuid ctr k hk; simpa [mergePostList] using hk
  | cons p rest ih =>
    intro posts keys uuid ctr k hk
    simp only [mergePostList]
    cases hp : p.text with
    | none => exact ih posts keys uuid ctr k hk
    | some t =>
      dsimp only
      by_cases he : t.isEmpty
      · rw [if_pos he]; exact ih posts keys uuid ctr k hk
      · rw [if_neg he]
        by_cases hm : lowerStr t ∈ keys
        · rw [if_pos hm]; exact ih posts keys uuid ctr k hk
        · rw [if_neg hm]
          exact ih _ _ uuid (ctr + 1) k (by simp [hk])

/-- After a merge, the key of every mergeable incoming item is known. -/
theorem mergePostList_covers (incoming : List SocialItemUpd) :
    ∀ (posts : List SocialPost) (keys : List String) (uuid : Nat → String)
      (ctr : Nat) (p : SocialItemUpd) (k : String),
      p ∈ incoming → itemKey p = some k →
      k ∈ (mergePostList posts keys incoming uuid ctr).2.1 := by
  induction incoming with
  | nil => intro _ _ _ _ _ _ hmem; cases hmem
  | cons q rest ih =>
    intro posts keys uuid ctr p k hmem hkey
    rcases List.mem_cons.mp hmem with hpq | hrest
    · subst hpq
      unfold itemKey at hkey
      simp only [mergePostList]
      cases hp : p.text with
      | none => rw [hp] at hkey; cases hkey
      | some t =>
        dsimp only
        rw [hp] at hkey
        dsimp only at hkey
        by_cases he : t.isEmpty
        · rw [if_pos he] at hkey; cases hkey
        · rw [if_neg he] at hkey
          have hk : k = lowerStr t := by
            simpa using hkey.symm
          subst hk
          rw [if_neg he]
          by_cases hm : lowerStr t ∈ keys
          · rw [if_pos hm]
            exact mergePostList_keys_mono rest posts keys uuid ctr _ hm
          · rw [if_neg hm]
            exact mergePostList_keys_mono rest _ _ uuid (ctr + 1) _ (by simp)
    · simp only [mergePostList]
      cases hp : q.text with
      | none => exact ih posts keys uuid ctr p k hrest hkey
      | some t =>
        dsimp only
        by_cases he : t.isEmpty
        · rw [if_pos he]; exact ih posts keys uuid ctr p k hrest hkey
        · rw [if_neg he]
          by_cases hm : lowerStr t ∈ keys
          · rw [if_pos hm]; exact ih posts keys uuid ctr p k hrest hkey
          · rw [if_neg hm]; exact ih _ _ uuid (ctr + 1) p k hrest hkey

/-- When every mergeable incoming item's key is already known, the merge
is the identity: nothing is appended, no id is consumed. -/
theorem mergePostList_skips (incoming : List SocialItemUpd) :
    ∀ (posts : List SocialPost) (keys : List String) (uuid : Nat → String)
      (ctr : Nat),
      (∀ p ∈ incoming, ∀ k, itemKey p = some k → k ∈ keys) →
      mergePostList posts keys incoming uuid ctr = (posts, keys, ctr) := by
  induction incoming with
  | nil => intro posts keys uuid ctr _; rfl
  | cons p rest ih =>
    intro posts keys uuid ctr hall
    have hrest : ∀ q ∈ rest, ∀ k, itemKey q = some k → k ∈ keys :=
      fun q hq => hall q (List.mem_cons_of_mem p hq)
    simp only [mergePostList]
    cases hp : p.text with
    | none => exact ih posts keys uuid ctr hrest
    | some t =>
      dsimp only
      by_cases he : t.isEmpty
      · rw [if_pos he]; exact ih posts keys uuid ctr hrest
      · rw [if_neg he]
        have hm : lowerStr t ∈ keys := by
          apply hall p (List.mem_cons_self p rest)
          unfold itemKey
          rw [hp]
          dsimp only
          rw [if_neg he]
        rw [if_pos hm]
        exact ih posts keys uuid ctr hrest

/-- The merge never introduces a duplicate case-insensitive text: if the
stored list is duplicate-free and every stored key is known, the merged
list is duplicate-free. -/
theorem mergePostList_nodup (incoming : List SocialItemUpd) :
    ∀ (posts : List SocialPost) (keys : List String) (uuid : Nat → String)
      (ctr : Nat),
      (posts.map postKey).Nodup →
      (∀ k ∈ posts.map postKey, k ∈ keys) →
      ((mergePostList posts keys incoming uuid ctr).1.map postKey).Nodup := by
  induction incoming with
  | nil => intro posts keys uuid ctr h1 _; simpa [mergePostList] using h1
  | cons p rest ih =>
    intro posts keys uuid ctr h1 h2
    simp only [mergePostList]
    cases hp : p.text with
    | none => exact ih posts keys uuid ctr h1 h2
    | some t =>
      dsimp only
      by_cases he : t.isEmpty
      · rw [if_pos he]; exact ih posts keys uuid ctr h1 h2
      · rw [if_neg he]
        by_cases hm : lowerStr t ∈ keys
        · rw [if_pos hm]; exact ih posts keys uuid ctr h1 h2
        · rw [if_neg hm]
          apply ih _ _ uuid (ctr + 1)
          · have hnot : lowerStr t ∉ posts.map postKey := fun hmem => hm (h2 _ hmem)
            simp [List.nodup_append, postKey, h1, hnot]
          · intro k hk
            simp only [List.map_append] at hk
            rcases List.mem_append.mp hk with hk | hk
            · exact List.mem_append_left _ (h2 k hk)
            · simp only [List.map_cons, List.map_nil, postKey] at hk
              exact List.mem_append_right _ hk

/-- Instagram merge preserves case-insensitive post uniqueness. -/
theorem applyInstagram_nodup (old : InstagramProfile) (iu : Option InstagramUpd)
    (uuid : Nat → String) (ctr : Nat)
    (h : (old.posts.map postKey).Nodup) :
    ((applyInstagram old iu uuid ctr).1.posts.map postKey).Nodup := by
  cases iu with
  | none => simpa [applyInstagram] using h
  | some ig =>
    cases hp : ig.posts with
    | none => simpa [applyInstagram, hp] using h
    | some ps =>
      simp only [applyInstagram, hp]
      exact mergePostList_nodup ps old.posts _ uuid ctr h (fun k hk => hk)

/-- Linkedin merge preserves case-insensitive activity uniqueness. -/
theorem applyLinkedin_nodup (old : LinkedinProfile) (lu : Option LinkedinUpd)
    (uuid : Nat → String) (ctr : Nat)
    (h : (old.activities.map postKey).Nodup) :
    ((applyLinkedin old lu uuid ctr).1.activities.map postKey).Nodup := by
  cases lu with
  | none => simpa [applyLinkedin] using h
  | some li =>
    cases hp : li.activities with
    | none => simpa [applyLinkedin, hp] using h
    | some as' =>
      simp only [applyLinkedin, hp]
      exact mergePostList_nodup as' old.activities _ uuid ctr h (fun k hk => hk)

/-- C6: every merge preserves post / activity uniqueness: if no two stored
instagram posts and no two stored linkedin activities share a
case-insensitive text, the same holds after `applyMemoryUpdate`, for any
fragment. -/
theorem applyMemoryUpdate_social_unique (m : UserMemory) (u : MemoryUpdate)
    (now : String) (uuid : Nat → String) (ctr : Nat)
    (hp : (m.social.instagram.posts.map postKey).Nodup)
    (ha : (m.social.linkedin.activities.map postKey).Nodup) :
    (((applyMemoryUpdate m u now uuid ctr).social.instagram.posts.map postKey).Nodup) ∧
    (((applyMemoryUpdate m u now uuid ctr).social.linkedin.activities.map postKey).Nodup) := by
  simp only [applyMemoryUpdate]
  exact ⟨applyInstagram_nodup _ _ uuid ctr hp, applyLinkedin_nodup _ _ uuid _ ha⟩

/-- The fragment that reports the posts `"Hello"` and `"hello"`. -/
def helloFragment : MemoryUpdate :=
  { user := none
    social := some
      { instagram := some
          { handle := none, url := none
            posts := some [{ text := some "Hello", date := none, url := none },
                           { text := some "hello", date := none, url := none }] }
        linkedin := none }
    psychoTree := none
    hasPsychoTreeAnswer := none }

/-- Witness for C6: merging `helloFragment` into the empty record keeps
both lists duplicate-free, and exactly one post is stored. -/
theorem applyMemoryUpdate_social_unique_witness :
    ((((applyMemoryUpdate (createEmptyMemory "s" "t0") helloFragment "t1"
          (fun n => toString n) 0).social.instagram.posts.map postKey).Nodup) ∧
     (((applyMemoryUpdate (createEmptyMemory "s" "t0") helloFragment "t1"
          (fun n => toString n) 0).social.linkedin.activities.map postKey).Nodup)) ∧
    (applyMemoryUpdate (createEmptyMemory "s" "t0") helloFragment "t1"
        (fun n => toString n) 0).social.instagram.posts.length = 1 :=
  ⟨applyMemoryUpdate_social_unique (createEmptyMemory "s" "t0") helloFragment "t1"
      (fun n => toString n) 0 (by decide) (by decide),
    by decide⟩

/-- The dedup key an incoming tree entry would be checked under, or `none`
when its `answer` is falsy and the source skips it. -/
def entryKey (e : EntryUpd) : Option String :=
  match e.answer with
  | some a => if a.isEmpty then none else some (entryUpdKey e a)
  | none => none

/-- The key list stays in sync with the stored entry list across a layer
merge. -/
theorem mergeEntryList_keys_sync (incoming : List EntryUpd) :
    ∀ (stored : List PsychoTreeEntry) (keys : List String) (layer : PsychoLayer)
      (now : String) (uuid : Nat → String) (ctr : Nat),
      keys = stored.map storedEntryKey →
      (mergeEntryList stored keys incoming layer now uuid ctr).2.1 =
        (mergeEntryList stored keys incoming layer now uuid ctr).1.map storedEntryKey := by
  induction incoming with
  | nil => intro stored keys layer now uuid ctr h; simpa [mergeEntryList] using h
  | cons e rest ih =>
    intro stored keys layer now uuid ctr h
    simp only [mergeEntryList]
    cases ha : e.answer with
    | none => exact ih stored keys layer now uuid ctr h
    | some a =>
      dsimp only
      by_cases he : a.isEmpty
      · rw [if_pos he]
        exact ih stored keys layer now uuid ctr h
      · rw [if_neg he]
        by_cases hk : entryUpdKey e a ∈ keys
        · rw [if_pos hk]
          exact ih stored keys layer now uuid ctr h
        · rw [if_neg hk]
          exact ih _ _ layer now uuid (ctr + 1)
            (by simp [h, storedEntryKey, entryUpdKey])

/-- Keys already known before a layer merge are still known after it. -/
theorem mergeEntryList_keys_mono (incoming : List EntryUpd) :
    ∀ (stored : List PsychoTreeEntry) (keys : List String) (layer : PsychoLayer)
      (now : String) (uuid : Nat → String) (ctr : Nat) (k : String), k ∈ keys →
      k ∈ (mergeEntryList stored keys incoming layer now uuid ctr).2.1 := by
  induction incoming with
  | nil => intro stored keys layer now uuid ctr k hk; simpa [mergeEntryList] using hk
  | cons e rest ih =>
    intro stored keys layer now uuid ctr k hk
    simp only [mergeEntryList]
    cases ha : e.answer with
    | none => exact ih stored keys layer now uuid ctr k hk
    | some a =>
      dsimp only
      by_cases he : a.isEmpty
      · rw [if_pos he]; exact ih stored keys layer now uuid ctr k hk
      · rw [if_neg he]
        by_cases hm : entryUpdKey e a ∈ keys
        · rw [if_pos hm]; exact ih stored keys layer now uuid ctr k hk
        · rw [if_neg hm]
          exact ih _ _ layer now uuid (ctr + 1) k (by simp [hk])

/-- After a layer merge, the key of every mergeable incoming entry is
known. -/
theorem mergeEntryList_covers (incoming : List EntryUpd) :
    ∀ (stored : List PsychoTreeEntry) (keys : List String) (layer : PsychoLayer)
      (now : String) (uuid : Nat → String) (ctr : Nat) (e : EntryUpd) (k : String),
      e ∈ incoming → entryKey e = some k →
      k ∈ (mergeEntryList stored keys incoming layer now uuid ctr).2.1 := by
  induction incoming with
  | nil => intro _ _ _ _ _ _ _ _ hmem; cases hmem
  | cons q rest ih =>
    intro stored keys layer now uuid ctr e k hmem hkey
    rcases List.mem_cons.mp hmem with hpq | hrest
    · subst hpq
      unfold entryKey at hkey
      simp only [mergeEntryList]
      cases ha : e.answer with
      | none => rw [ha] at hkey; cases hkey
      | some a =>
        dsimp only
        rw [ha] at hkey
        dsimp only at hkey
        by_cases he : a.isEmpty
        · rw [if_pos he] at hkey; cases hkey
        · rw [if_neg he] at hkey
          have hk : k = entryUpdKey e a := by simpa using hkey.symm
          subst hk
          rw [if_neg he]
          by_cases hm : entryUpdKey e a ∈ keys
          · rw [if_pos hm]
            exact mergeEntryList_keys_mono rest stored keys layer now uuid ctr _ hm
          · rw [if_neg hm]
            exact mergeEntryList_keys_mono rest _ _ layer now uuid (ctr + 1) _ (by simp)
    · simp only [mergeEntryList]
      cases ha : q.answer with
      | none => exact ih stored keys layer now uuid ctr e k hrest hkey
      | some a =>
        dsimp only
        by_cases he : a.isEmpty
        · rw [if_pos he]; exact ih stored keys layer now uuid ctr e k hrest hkey
        · rw [if_neg he]
          by_cases hm : entryUpdKey q a ∈ keys
          · rw [if_pos hm]; exact ih stored keys layer now uuid ctr e k hrest hkey
          · rw [if_neg hm]; exact ih _ _ layer now uuid (ctr + 1) e k hrest hkey

/-- When every mergeable incoming entry's key is already known, the layer
merge is the identity. -/
theorem mergeEntryList_skips (incoming : List EntryUpd) :
    ∀ (stored : List PsychoTreeEntry) (keys : List String) (layer : PsychoLayer)
      (now : String) (uuid : Nat → String) (ctr : Nat),
      (∀ e ∈ incoming, ∀ k, entryKey e = some k → k ∈ keys) →
      mergeEntryList stored keys incoming layer now uuid ctr = (stored, keys, ctr) := by
  induction incoming with
  | nil => intro stored keys layer now uuid ctr _; rfl
  | cons e rest ih =>
    intro stored keys layer now uuid ctr hall
    have hrest : ∀ q ∈ rest, ∀ k, entryKey q = some k → k ∈ keys :=
      fun q hq => hall q (List.mem_cons_of_mem e hq)
    simp only [mergeEntryList]
    cases ha : e.answer with
    | none => exact ih stored keys layer now uuid ctr hrest
    | some a =>
      dsimp only
      by_cases he : a.isEmpty
      · rw [if_pos he]; exact ih stored keys layer now uuid ctr hrest
      · rw [if_neg he]
        have hm : entryUpdKey e a ∈ keys := by
          apply hall e (List.mem_cons_self e rest)
          unfold entryKey
          rw [ha]
          dsimp only
          rw [if_neg he]
        rw [if_pos hm]
        exact ih stored keys layer now uuid ctr hrest

/-- A fragment-side tree update carrying `es` at exactly one layer. -/
def singleLayerUpd (layer : PsychoLayer) (es : List EntryUpd) : PsychoTreeUpd :=
  match layer with
  | .leaves => { leaves := some es, branches := none, trunk := none, roots := none }
  | .branches => { leaves := none, branches := some es, trunk := none, roots := none }
  | .trunk => { leaves := none, branches := none, trunk := some es, roots := none }
  | .roots => { leaves := none, branches := none, trunk := none, roots := some es }

/-- Merging a single incoming entry with truthy answer `a` into a layer:
it is appended exactly when its key is not already present, and the
appended entry carries the fresh id, the layer tag, the timestamp and the
coerced tag list. -/
theorem mergeEntryList_single (stored : List PsychoTreeEntry) (e : EntryUpd)
    (layer : PsychoLayer) (a now : String) (uuid : Nat → String) (ctr : Nat)
    (ha : e.answer = some a) (hne : a.isEmpty = false) :
    (mergeEntryList stored (stored.map storedEntryKey) [e] layer now uuid ctr).1 =
      (if entryUpdKey e a ∈ stored.map storedEntryKey
       then stored
       else stored ++
         [{ id := uuid ctr, layer := layer, question := e.question, answer := a,
            evidence := e.evidence,
            tags := (e.tags.getD []).filter (fun t => !t.isEmpty),
            confidence := e.confidence, timestamp := now }]) := by
  simp only [mergeEntryList]
  rw [ha]
  dsimp only
  rw [if_neg (by simp [hne])]
  by_cases hm : entryUpdKey e a ∈ stored.map storedEntryKey
  · simp [hm]
  · simp [hm]

/-- C2 (amended): for every record, layer and incoming entry with a
non-empty answer, a fragment carrying exactly that entry appends it to the
layer if and only if no entry of the layer already has the same
case-insensitive dedup key — the key being the concatenation
`(question ?? "") ++ ":" ++ answer`, lower-cased, not the raw pair — and
the appended entry gets the fresh id, the layer tag, the timestamp `now`,
and `tags` coerced to an explicit (possibly empty) list, never null. -/
theorem psychoTree_entry_append_iff (m : UserMemory) (layer : PsychoLayer)
    (e : EntryUpd) (a now : String) (uuid : Nat → String) (ctr : Nat)
    (ha : e.answer = some a) (hne : a.isEmpty = false) :
    (applyMemoryUpdate m
        { user := none, social := none,
          psychoTree := some (singleLayerUpd layer [e]),
          hasPsychoTreeAnswer := none } now uuid ctr).psychoTree.layerGet layer =
      (if entryUpdKey e a ∈ (m.psychoTree.layerGet layer).map storedEntryKey
       then m.psychoTree.layerGet layer
       else m.psychoTree.layerGet layer ++
         [{ id := uuid ctr, layer := layer, question := e.question, answer := a,
            evidence := e.evidence,
            tags := (e.tags.getD []).filter (fun t => !t.isEmpty),
            confidence := e.confidence, timestamp := now }]) := by
  cases layer <;>
    simp only [applyMemoryUpdate, applyUserUpd, applyInstagram, applyLinkedin,
      applyTree, singleLayerUpd, mergeLayer, Option.bind, PsychoTree.layerGet] <;>
    rw [mergeEntryList_single _ e _ a now uuid ctr ha hne]

/-- A record whose leaves hold the single entry with question `"a:b"` and
answer `"c"`, set up to exhibit the colon collision of the dedup key. -/
def colonMem : UserMemory :=
  { createEmptyMemory "s" "T0" with
      psychoTree :=
        { leaves := [{ id := "e0", layer := .leaves, question := some "a:b",
                       answer := "c", evidence := none, tags := [],
                       confidence := none, timestamp := "T0" }],
          branches := [], trunk := [], roots := [] } }

/-- The fragment carrying a single leaves entry with question `"a"` and
answer `"b:c"`. -/
def colonFrag : MemoryUpdate :=
  { user := none, social := none,
    psychoTree := some (singleLayerUpd .leaves
      [{ question := some "a", answer := some "b:c", evidence := none,
         tags := none, confidence := none }]),
    hasPsychoTreeAnswer := none }

/-- C2 counterexample: the incoming leaves entry has the non-empty answer
`"b:c"`, and no stored leaves entry has the same case-insensitive
(question, answer) pair — the stored pair is `("a:b", "c")`, the incoming
one `("a", "b:c")` — yet nothing is appended, because the code compares
the colon-joined key strings, which coincide (`"a:b:c"`). -/
theorem psychoTree_pair_dedup_counterexample :
    ("b:c" : String).isEmpty = false ∧
    colonMem.psychoTree.leaves.all
      (fun en => !(lowerStr (en.question.getD "") == lowerStr "a" &&
        lowerStr en.answer == lowerStr "b:c")) = true ∧
    (applyMemoryUpdate colonMem colonFrag "T1" (fun n => toString n)
        0).psychoTree.leaves = colonMem.psychoTree.leaves :=
  ⟨rfl, by decide, by decide⟩

/-- The concrete incoming entry used in the C2 witness. -/
def witnessEntry : EntryUpd :=
  { question := none, answer := some "I code", evidence := none,
    tags := some ["hobby", ""], confidence := none }

/-- Witness for C2 (amended): appending a fresh entry into the empty
branches layer, with fresh id, layer tag, timestamp `now`, and tags
coerced to a filtered list. -/
theorem psychoTree_entry_append_iff_witness :
    (applyMemoryUpdate (createEmptyMemory "s" "T0")
        { user := none, social := none,
          psychoTree := some (singleLayerUpd .branches [witnessEntry]),
          hasPsychoTreeAnswer := none } "T1" (fun n => toString n)
        0).psychoTree.layerGet .branches =
      (if entryUpdKey witnessEntry "I code" ∈
          ((createEmptyMemory "s" "T0").psychoTree.layerGet .branches).map storedEntryKey
       then (createEmptyMemory "s" "T0").psychoTree.layerGet .branches
       else (createEmptyMemory "s" "T0").psychoTree.layerGet .branches ++
         [{ id := (fun n : Nat => toString n) 0, layer := .branches,
            question := witnessEntry.question, answer := "I code",
            evidence := witnessEntry.evidence,
            tags := (witnessEntry.tags.getD []).filter (fun t => !t.isEmpty),
            confidence := witnessEntry.confidence, timestamp := "T1" }]) :=
  psychoTree_entry_append_iff (createEmptyMemory "s" "T0") .branches
    witnessEntry "I code" "T1" (fun n => toString n) 0 rfl rfl

/-- Overwriting twice with the same incoming value is the same as
overwriting once. -/
theorem orKeep_idem (incoming old : Option String) :
    orKeep incoming (orKeep incoming old) = orKeep incoming old := by
  cases incoming with
  | none => rfl
  | some s =>
    by_cases hs : s.isEmpty
    · simp [orKeep, hs]
    · simp [orKeep, hs]

/-- The identity merge is idempotent. -/
theorem applyUserUpd_idem (old : UserIdentity) (uu : Option UserUpd) :
    applyUserUpd (applyUserUpd old uu) uu = applyUserUpd old uu := by
  cases uu with
  | none => rfl
  | some u => simp [applyUserUpd, orKeep_idem]

/-- Re-merging the same incoming post list is the identity: every
mergeable key is already present after the first merge. -/
theorem mergePostList_idem (ps : List SocialItemUpd) (posts : List SocialPost)
    (uuid1 uuid2 : Nat → String) (c1 c2 : Nat) :
    mergePostList (mergePostList posts (posts.map postKey) ps uuid1 c1).1
        ((mergePostList posts (posts.map postKey) ps uuid1 c1).1.map postKey)
        ps uuid2 c2 =
      ((mergePostList posts (posts.map postKey) ps uuid1 c1).1,
        (mergePostList posts (posts.map postKey) ps uuid1 c1).1.map postKey, c2) := by
  apply mergePostList_skips
  intro p hp k hk
  rw [← mergePostList_keys_sync ps posts (posts.map postKey) uuid1 c1 rfl]
  exact mergePostList_covers ps posts (posts.map postKey) uuid1 c1 p k hp hk

/-- The instagram merge is idempotent on the profile. -/
theorem applyInstagram_idem (old : InstagramProfile) (iu : Option InstagramUpd)
    (uuid1 uuid2 : Nat → String) (c1 c2 : Nat) :
    applyInstagram (applyInstagram old iu uuid1 c1).1 iu uuid2 c2 =
      ((applyInstagram old iu uuid1 c1).1, c2) := by
  cases iu with
  | none => rfl
  | some ig =>
    cases hp : ig.posts with
    | none => simp [applyInstagram, hp, orKeep_idem]
    | some ps =>
      simp only [applyInstagram, hp]
      rw [mergePostList_idem ps old.posts uuid1 uuid2 c1 c2]
      simp [orKeep_idem]

/-- The linkedin merge is idempotent on the profile. -/
theorem applyLinkedin_idem (old : LinkedinProfile) (lu : Option LinkedinUpd)
    (uuid1 uuid2 : Nat → String) (c1 c2 : Nat) :
    applyLinkedin (applyLinkedin old lu uuid1 c1).1 lu uuid2 c2 =
      ((applyLinkedin old lu uuid1 c1).1, c2) := by
  cases lu with
  | none => rfl
  | some li =>
    cases hp : li.activities with
    | none => simp [applyLinkedin, hp, orKeep_idem]
    | some as' =>
      simp only [applyLinkedin, hp]
      rw [mergePostList_idem as' old.activities uuid1 uuid2 c1 c2]
      simp [orKeep_idem]

/-- Re-merging the same incoming entry list into a layer is the
identity. -/
theorem mergeLayer_idem (stored : List PsychoTreeEntry) (inc : Option (List EntryUpd))
    (layer : PsychoLayer) (now1 now2 : String) (uuid1 uuid2 : Nat → String)
    (c1 c2 : Nat) :
    mergeLayer (mergeLayer stored inc layer now1 uuid1 c1).1 inc layer now2 uuid2 c2 =
      ((mergeLayer stored inc layer now1 uuid1 c1).1, c2) := by
  cases inc with
  | none => rfl
  | some es =>
    simp only [mergeLayer]
    have hskip := mergeEntryList_skips es
      (mergeEntryList stored (stored.map storedEntryKey) es layer now1 uuid1 c1).1
      ((mergeEntryList stored (stored.map storedEntryKey) es layer now1 uuid1 c1).1.map
        storedEntryKey) layer now2 uuid2 c2 ?_
    · rw [hskip]
    · intro q hq k hk
      rw [← mergeEntryList_keys_sync es stored (stored.map storedEntryKey)
        layer now1 uuid1 c1 rfl]
      exact mergeEntryList_covers es stored (stored.map storedEntryKey)
        layer now1 uuid1 c1 q k hq hk

/-- The tree merge is idempotent on the tree. -/
theorem applyTree_idem (old : PsychoTree) (tu : Option PsychoTreeUpd)
    (now1 now2 : String) (uuid1 uuid2 : Nat → String) (c1 c2 : Nat) :
    applyTree (applyTree old tu now1 uuid1 c1).1 tu now2 uuid2 c2 =
      ((applyTree old tu now1 uuid1 c1).1, c2) := by
  cases tu with
  | none => rfl
  | some t => simp only [applyTree, mergeLayer_idem]

/-- C1: merging the identical fragment a second time — at any later time,
with any id supply and counter — produces no change:
`merge (merge r f) f = merge r f`. -/
theorem applyMemoryUpdate_idempotent (m : UserMemory) (f : MemoryUpdate)
    (now1 now2 : String) (uuid1 uuid2 : Nat → String) (c1 c2 : Nat) :
    applyMemoryUpdate (applyMemoryUpdate m f now1 uuid1 c1) f now2 uuid2 c2 =
      applyMemoryUpdate m f now1 uuid1 c1 := by
  simp only [applyMemoryUpdate, applyUserUpd_idem, applyInstagram_idem,
    applyLinkedin_idem, applyTree_idem]
